import Mathlib

/-!
Shallow embedding of the calculator screen logic of `app/(tabs)/index.tsx`
(rn-calculator).  Expression buffers and result strings are modelled as
`List Char`; the JavaScript string helpers are translated function by
function.  The external `expr-eval` parser/evaluator is a black box in the
source (string → numeric value or exception) and is modelled as a parameter
`ev : List Char → Option JSNumber`; IEEE-754 numeric values are abstracted
to a finiteness flag together with the decimal string that the finite
branch of `formatResult` would render (floating-point decimal rendering is
outside the embedding).
-/

/-- Whitespace predicate used by the model of JavaScript `String.trim`. -/
def isWS (c : Char) : Bool :=
  c = ' ' || c = '\t' || c = '\n' || c = '\r'

/-- Model of JavaScript `s.trim()`: strip leading and trailing whitespace. -/
def jsTrim (l : List Char) : List Char :=
  ((l.dropWhile isWS).reverse.dropWhile isWS).reverse

/-- Source `isOp` (line 88): membership in `["+", "-", "×", "÷", "*", "/"]`.
Note the list contains the ASCII hyphen-minus, not the keypad minus glyph
`−` (U+2212). -/
def isOp (c : Char) : Bool :=
  c = '+' || c = '-' || c = '×' || c = '÷' || c = '*' || c = '/'

/-- Source `endsWithValueToken` (line 92): a digit, `)`, `π` or `e`. -/
def endsWithValueToken (c : Char) : Bool :=
  c.isDigit || c = ')' || c = 'π' || c = 'e'

/-- Source `needsImplicitMultiply` (lines 96-101): the buffer is non-empty,
its last character is a completed value, and the inserted token starts with
`(`, `π` or `e`. -/
def needsImplicitMultiply (prev : List Char) (nextStartsWith : Char) : Bool :=
  match prev.getLast? with
  | none => false
  | some last =>
      endsWithValueToken last &&
        (nextStartsWith = '(' || nextStartsWith = 'π' || nextStartsWith = 'e')

/-- Whole-string match of the trailing-number pattern `\d+(\.\d+)?`:
one or more digits, optionally followed by a dot and one or more digits.
Since the digit run is followed by a non-digit (`.` or the end), the greedy
`takeWhile` split is the only possible parse of the regex. -/
def matchesNumPat (l : List Char) : Bool :=
  let ds := l.takeWhile Char.isDigit
  let rest := l.dropWhile Char.isDigit
  (!ds.isEmpty) &&
    (match rest with
     | [] => true
     | c :: tl => c == '.' && !tl.isEmpty && tl.all Char.isDigit)

/-- Leftmost start position of an end-anchored regex match: the engine
scans candidate start positions left to right, and a candidate at `k`
succeeds exactly when the whole suffix `l.drop k` matches the pattern (the
`$` anchor forces the match to extend to the end of the string). -/
def firstSuffixMatch (P : List Char → Bool) : List Char → Option Nat
  | [] => none
  | c :: t => if P (c :: t) then some 0 else (firstSuffixMatch P t).map (· + 1)

/-- Start index of the match of `/(\d+(\.\d+)?)$/`. -/
def numStart (l : List Char) : Option Nat :=
  firstSuffixMatch matchesNumPat l

/-- Source `replaceLastNumber` (lines 103-108): replace the match of
`/(\d+(\.\d+)?)$/` using `f`; identity when there is no match. -/
def replaceLastNumber (l : List Char) (f : List Char → List Char) : List Char :=
  match numStart l with
  | none => l
  | some k => l.take k ++ f (l.drop k)

/-- Source `applyPercent` (lines 110-113): turn the last number `n` into
`(n/100)`. -/
def applyPercent (l : List Char) : List Char :=
  replaceLastNumber l (fun n => '(' :: (n ++ ('/' :: '1' :: '0' :: '0' :: ')' :: [])))

/-- Whole-string match of `\(-\d+(\.\d+)?\)`: an opening parenthesis, a
hyphen-minus, a number, a closing parenthesis. -/
def negParen (l : List Char) : Bool :=
  match l with
  | c1 :: c2 :: rest =>
      c1 == '(' && c2 == '-' && rest.getLast? == some ')' &&
        matchesNumPat rest.dropLast
  | _ => false

/-- Start index of the match of `/\(-(\d+(\.\d+)?)\)$/` (leftmost start
position whose suffix matches, as for `numStart`). -/
def negStart (l : List Char) : Option Nat :=
  firstSuffixMatch negParen l

/-- Source `toggleSign` (lines 115-126): unwrap a trailing `(-n)` to `n`;
else wrap a trailing number `n` as `(-n)`; else `-` on the empty buffer and
identity otherwise. -/
def toggleSign (l : List Char) : List Char :=
  match negStart l with
  | some k => l.take k ++ ((l.drop k).drop 2).dropLast
  | none =>
      match numStart l with
      | some k => l.take k ++ ('(' :: '-' :: (l.drop k ++ [')']))
      | none => if l.isEmpty then ['-'] else l

/-- Source `sanitize` (lines 77-83): `×`→`*`, `÷`→`/`, `−`→`-`, `π`→`pi`. -/
def sanitize (l : List Char) : List Char :=
  (l.map (fun c =>
    if c = '×' then ['*']
    else if c = '÷' then ['/']
    else if c = '−' then ['-']
    else if c = 'π' then ['p', 'i']
    else [c])).flatten

/-- Modelled from the spec: the numeric value returned by the black-box
`expr-eval` evaluator, abstracted to its finiteness flag and the decimal
string the finite branch of `formatResult` renders for it (the source's
`toString`/`toPrecision`/`Math.round` pipeline over IEEE-754 doubles is
not part of the embedding). -/
structure JSNumber where
  finite : Bool
  fmt : List Char
deriving DecidableEq

/-- Source `formatResult` (lines 128-136): non-finite values render as the
error marker; the finite decimal rendering is carried by the abstraction. -/
def formatResult (v : JSNumber) : List Char :=
  if v.finite then v.fmt else "Error".data

/-- Source `evaluateNow` (lines 189-200): sanitize, delegate to the
black-box parser/evaluator, format; any thrown failure is caught and
becomes the error marker. -/
def evaluateNow (ev : List Char → Option JSNumber) (expr : List Char) : List Char :=
  match ev (sanitize expr) with
  | none => "Error".data
  | some v => formatResult v

/-- Source `appendToken` (lines 202-208): insert `×` when implicit
multiplication is required, keyed on the first character of the token. -/
def appendToken (prev tok : List Char) : List Char :=
  match tok.head? with
  | some c => if needsImplicitMultiply prev c then prev ++ ('×' :: tok) else prev ++ tok
  | none => prev ++ tok

/-- Source `onKeyPress`, case `x²` (lines 244-251). -/
def squarePress (prev : List Char) : List Char :=
  match prev.getLast? with
  | none => prev
  | some last => if endsWithValueToken last then prev ++ ['^', '2'] else prev

/-- Source `onKeyPress`, case `x^y` (lines 271-278). -/
def powPress (prev : List Char) : List Char :=
  match prev.getLast? with
  | none => prev
  | some last => if endsWithValueToken last then prev ++ ['^'] else prev

/-- Source `onKeyPress`, case `√` (lines 260-270): rewrite a trailing
number `n` to `sqrt(n)` in place, else append via `appendToken`. -/
def sqrtPress (prev : List Char) : List Char :=
  match numStart prev with
  | some k => prev.take k ++ ("sqrt(".data ++ (prev.drop k ++ [')']))
  | none => appendToken prev "sqrt(".data

/-- Source `onKeyPress`, operator cases (lines 293-306): chain from the
last result on an empty buffer when it is not `"0"`; ignore a leading
operator; replace a trailing operator; otherwise append. -/
def operPress (result lbl prev : List Char) : List Char :=
  if prev.isEmpty then
    if result ≠ "0".data then result ++ lbl else []
  else
    match prev.getLast? with
    | some last => if isOp last then prev.dropLast ++ lbl else prev ++ lbl
    | none => prev ++ lbl

/-- Screen state owned by the key handler: the input buffer (`expression`)
and the displayed result. -/
structure CalcState where
  expression : List Char
  result : List Char
deriving DecidableEq

/-- Initial screen state: empty buffer, result `"0"`. -/
def initState : CalcState := ⟨[], "0".data⟩

/-- Source `onKeyPress` (lines 211-331): the key dispatch, translated
switch case by switch case.  UI-only keys (`⋯ More`, `DEG`, `RAD`) and the
unwired keys (trig, log, `1/x`, `!`) leave the buffer and result
unchanged. -/
def onKeyPress (ev : List Char → Option JSNumber) (lbl : String) (s : CalcState) :
    CalcState :=
  if lbl = "C" ∨ lbl = "AC" then ⟨[], "0".data⟩
  else if lbl = "±" then ⟨toggleSign s.expression, s.result⟩
  else if lbl = "%" then ⟨applyPercent s.expression, s.result⟩
  else if lbl = "⋯ More" ∨ lbl = "DEG" ∨ lbl = "RAD" then s
  else if lbl = "π" ∨ lbl = "e" then ⟨appendToken s.expression lbl.data, s.result⟩
  else if lbl = "x²" then ⟨squarePress s.expression, s.result⟩
  else if lbl = "√" then ⟨sqrtPress s.expression, s.result⟩
  else if lbl = "x^y" then ⟨powPress s.expression, s.result⟩
  else if lbl = "=" then
    if jsTrim s.expression = [] then s
    else
      let r := evaluateNow ev s.expression
      if r ≠ "Error".data then ⟨r, r⟩ else ⟨s.expression, r⟩
  else if lbl = "+" ∨ lbl = "−" ∨ lbl = "×" ∨ lbl = "÷" then
    ⟨operPress s.result lbl.data s.expression, s.result⟩
  else if lbl = "(" ∨ lbl = ")" then ⟨appendToken s.expression lbl.data, s.result⟩
  else if lbl = "." ∨ lbl = "0" ∨ lbl = "1" ∨ lbl = "2" ∨ lbl = "3" ∨ lbl = "4" ∨
      lbl = "5" ∨ lbl = "6" ∨ lbl = "7" ∨ lbl = "8" ∨ lbl = "9" then
    ⟨jsTrim (s.expression ++ lbl.data), s.result⟩
  else s

/-- Fold a sequence of key presses over a state. -/
def runKeys (ev : List Char → Option JSNumber) (keys : List String) (s : CalcState) :
    CalcState :=
  keys.foldl (fun st k => onKeyPress ev k st) s

/-- Evaluator that rejects every input; stands in for the black box in
concrete runs that never reach a successful evaluation. -/
def noEval : List Char → Option JSNumber := fun _ => none

/-- No two adjacent characters are both operator characters. -/
def noTwoOps : List Char → Bool
  | [] => true
  | [_] => true
  | a :: b :: t => !(isOp a && isOp b) && noTwoOps (b :: t)

/-- Every character is non-whitespace. -/
def wsFree (l : List Char) : Bool := l.all (fun c => !isWS c)

/-- The last character, if any, is not an operator character. -/
def lastNotOp (l : List Char) : Bool :=
  match l.getLast? with
  | none => true
  | some c => !isOp c

/-- Well-formedness of a displayed-result string as far as the editor
invariants need it: no adjacent operator characters, no whitespace, and no
trailing operator character. -/
def GoodOut (l : List Char) : Bool := noTwoOps l && wsFree l && lastNotOp l

/-- Hypothesis on the black-box evaluator: every successfully produced
value formats to a well-formed result string.  The real `formatResult`
finite branch renders JavaScript numbers (`String(x)` / `toPrecision`),
whose outputs are decimal or exponent strings ending in a digit, so this
holds of the actual external evaluator. -/
def EvOK (ev : List Char → Option JSNumber) : Prop :=
  ∀ s v, ev s = some v → GoodOut v.fmt = true

/-- Helper for the dot-run invariant: the flag records whether a `.` has
already been seen in the current maximal digit-or-dot run. -/
def dotRunsOkAux : Bool → List Char → Bool
  | _, [] => true
  | seen, c :: t =>
      if c = '.' then !seen && dotRunsOkAux true t
      else if c.isDigit then dotRunsOkAux seen t
      else dotRunsOkAux false t

/-- Every maximal run of digit-or-dot characters contains at most one
`.`. -/
def dotRunsOk (l : List Char) : Bool := dotRunsOkAux false l

/-! ### Characterization of the leftmost end-anchored match -/

lemma firstSuffixMatch_eq_none_iff (P : List Char → Bool) (l : List Char) :
    firstSuffixMatch P l = none ↔ ∀ j, j < l.length → P (l.drop j) = false := by
  induction l with
  | nil => simp [firstSuffixMatch]
  | cons c t ih =>
    cases hP : P (c :: t) with
    | true =>
      simp only [firstSuffixMatch, hP, if_pos rfl]
      constructor
      · intro h; exact absurd h (by simp)
      · intro h
        have h0 := h 0 (by simp)
        rw [List.drop_zero, hP] at h0
        exact absurd h0 (by simp)
    | false =>
      simp only [firstSuffixMatch, hP]
      rw [if_neg (by simp), Option.map_eq_none', ih]
      constructor
      · intro h j hj
        cases j with
        | zero => simpa using hP
        | succ j' =>
          rw [List.drop_succ_cons]
          exact h j' (by simp at hj; omega)
      · intro h j hj
        have := h (j + 1) (by simp; omega)
        rwa [List.drop_succ_cons] at this

lemma firstSuffixMatch_eq_some_iff (P : List Char → Bool) (l : List Char) (k : Nat) :
    firstSuffixMatch P l = some k ↔
      k < l.length ∧ P (l.drop k) = true ∧ ∀ j, j < k → P (l.drop j) = false := by
  induction l generalizing k with
  | nil => simp [firstSuffixMatch]
  | cons c t ih =>
    cases hP : P (c :: t) with
    | true =>
      simp only [firstSuffixMatch, hP, eq_self_iff_true, if_true, Option.some.injEq]
      constructor
      · rintro rfl
        exact ⟨by simp, by simpa using hP, by omega⟩
      · rintro ⟨-, -, hmin⟩
        rcases Nat.eq_zero_or_pos k with rfl | hk
        · rfl
        · have := hmin 0 hk
          rw [List.drop_zero, hP] at this
          exact absurd this (by simp)
    | false =>
      simp only [firstSuffixMatch, hP]
      rw [if_neg (by simp)]
      cases hft : firstSuffixMatch P t with
      | none =>
        rw [firstSuffixMatch_eq_none_iff] at hft
        simp only [Option.map_none']
        constructor
        · intro h; exact absurd h (by simp)
        · rintro ⟨hlt, hdrop, -⟩
          exfalso
          cases k with
          | zero =>
            rw [List.drop_zero, hP] at hdrop
            exact absurd hdrop (by simp)
          | succ k' =>
            rw [List.drop_succ_cons] at hdrop
            have := hft k' (by simp at hlt; omega)
            rw [this] at hdrop
            exact absurd hdrop (by simp)
      | some k' =>
        obtain ⟨hlt, hdrop, hmin⟩ := (ih k').mp hft
        simp only [Option.map_some', Option.some.injEq]
        constructor
        · rintro rfl
          refine ⟨by simp; omega, by simpa using hdrop, ?_⟩
          intro j hj
          cases j with
          | zero => simpa using hP
          | succ j' =>
            rw [List.drop_succ_cons]
            exact hmin j' (by omega)
        · rintro ⟨hlt2, hdrop2, hmin2⟩
          cases k with
          | zero =>
            rw [List.drop_zero, hP] at hdrop2
            exact absurd hdrop2 (by simp)
          | succ k'' =>
            rw [List.drop_succ_cons] at hdrop2
            have h1 : ¬ k' < k'' := by
              intro hlt3
              have := hmin2 (k' + 1) (by omega)
              rw [List.drop_succ_cons, hdrop] at this
              exact absurd this (by simp)
            have h2 : ¬ k'' < k' := by
              intro hlt3
              have := hmin k'' hlt3
              rw [hdrop2] at this
              exact absurd this (by simp)
            omega

/-! ### Facts about the number pattern -/

lemma exists_getLast?_of_ne_nil {l : List Char} (h : l ≠ []) :
    ∃ a, l.getLast? = some a := by
  cases hl : l.getLast? with
  | none => exact absurd (List.getLast?_eq_none_iff.mp hl) h
  | some a => exact ⟨a, rfl⟩

lemma matchesNumPat_iff (l : List Char) :
    matchesNumPat l = true ↔
      l.takeWhile Char.isDigit ≠ [] ∧
        (l.dropWhile Char.isDigit = [] ∨
          ∃ tl, l.dropWhile Char.isDigit = '.' :: tl ∧ tl ≠ [] ∧
            ∀ c ∈ tl, c.isDigit = true) := by
  cases hrest : l.dropWhile Char.isDigit with
  | nil =>
    simp [matchesNumPat, hrest, List.isEmpty_iff]
  | cons c tl =>
    simp [matchesNumPat, hrest, List.isEmpty_iff, List.all_eq_true, and_assoc]

lemma matchesNumPat_ne_nil {l : List Char} (h : matchesNumPat l = true) : l ≠ [] := by
  intro hl
  subst hl
  exact absurd h (by decide)

lemma matchesNumPat_chars {l : List Char} (h : matchesNumPat l = true) :
    ∀ c ∈ l, c.isDigit = true ∨ c = '.' := by
  obtain ⟨-, hrest⟩ := (matchesNumPat_iff l).mp h
  intro c hc
  rw [← List.takeWhile_append_dropWhile Char.isDigit l, List.mem_append] at hc
  rcases hc with hc | hc
  · exact Or.inl (List.mem_takeWhile_imp hc)
  · rcases hrest with hnil | ⟨tl, htl, -, hdig⟩
    · rw [hnil] at hc
      cases hc
    · rw [htl] at hc
      rcases List.mem_cons.mp hc with rfl | hc
      · exact Or.inr rfl
      · exact Or.inl (hdig c hc)

lemma matchesNumPat_getLast {l : List Char} (h : matchesNumPat l = true) :
    ∃ d, l.getLast? = some d ∧ d.isDigit = true := by
  obtain ⟨hds, hrest⟩ := (matchesNumPat_iff l).mp h
  rcases hrest with hnil | ⟨tl, htl, htlne, hdig⟩
  · have hl : l = l.takeWhile Char.isDigit := by
      conv_lhs => rw [← List.takeWhile_append_dropWhile Char.isDigit l]
      rw [hnil, List.append_nil]
    obtain ⟨d, hd⟩ := exists_getLast?_of_ne_nil hds
    refine ⟨d, by rw [hl]; exact hd, ?_⟩
    exact List.mem_takeWhile_imp (List.mem_of_mem_getLast? (by rw [hd]; rfl))
  · have hl : l = l.takeWhile Char.isDigit ++ ('.' :: tl) := by
      conv_lhs => rw [← List.takeWhile_append_dropWhile Char.isDigit l]
      rw [htl]
    obtain ⟨d, hd⟩ := exists_getLast?_of_ne_nil htlne
    refine ⟨d, ?_, hdig d (List.mem_of_mem_getLast? (by rw [hd]; rfl))⟩
    rw [hl, List.getLast?_append_of_ne_nil _ (by simp)]
    cases tl with
    | nil => exact absurd rfl htlne
    | cons x xs => rw [List.getLast?_cons_cons, hd]

lemma matchesNumPat_head {l : List Char} (h : matchesNumPat l = true) :
    ∃ d, l.head? = some d ∧ d.isDigit = true := by
  obtain ⟨hds, -⟩ := (matchesNumPat_iff l).mp h
  obtain ⟨d, hd, hmem⟩ : ∃ d, (l.takeWhile Char.isDigit).head? = some d ∧
      d ∈ l.takeWhile Char.isDigit := by
    cases hds' : l.takeWhile Char.isDigit with
    | nil => exact absurd hds' hds
    | cons x xs => exact ⟨x, rfl, by simp⟩
  refine ⟨d, ?_, List.mem_takeWhile_imp hmem⟩
  conv_lhs => rw [← List.takeWhile_append_dropWhile Char.isDigit l]
  rw [List.head?_append_of_ne_nil _ hds, hd]

lemma not_op_of_isDigit {c : Char} (h : c.isDigit = true) : isOp c = false := by
  by_contra hop
  rw [Bool.not_eq_false] at hop
  unfold isOp at hop
  simp only [Bool.or_eq_true, decide_eq_true_eq] at hop
  rcases hop with ((((h1 | h1) | h1) | h1) | h1) | h1 <;> subst h1 <;>
    exact absurd h (by decide)

lemma not_ws_of_isDigit {c : Char} (h : c.isDigit = true) : isWS c = false := by
  by_contra hws
  rw [Bool.not_eq_false] at hws
  unfold isWS at hws
  simp only [Bool.or_eq_true, decide_eq_true_eq] at hws
  rcases hws with ((h1 | h1) | h1) | h1 <;> subst h1 <;>
    exact absurd h (by decide)

lemma matchesNumPat_not_op {l : List Char} (h : matchesNumPat l = true) :
    ∀ c ∈ l, isOp c = false := by
  intro c hc
  rcases matchesNumPat_chars h c hc with hd | rfl
  · exact not_op_of_isDigit hd
  · decide

lemma matchesNumPat_not_ws {l : List Char} (h : matchesNumPat l = true) :
    ∀ c ∈ l, isWS c = false := by
  intro c hc
  rcases matchesNumPat_chars h c hc with hd | rfl
  · exact not_ws_of_isDigit hd
  · decide

/-! ### Adjacent-operator and whitespace machinery -/

/-- Compatibility of the junction pair when two strings are concatenated:
the last character of the left part and the first character of the right
part are not both operator characters. -/
def junctOK (xs ys : List Char) : Bool :=
  match xs.getLast?, ys.head? with
  | some a, some b => !(isOp a && isOp b)
  | _, _ => true

lemma noTwoOps_append (xs ys : List Char) :
    noTwoOps (xs ++ ys) = true ↔
      noTwoOps xs = true ∧ junctOK xs ys = true ∧ noTwoOps ys = true := by
  induction xs with
  | nil => simp [noTwoOps, junctOK]
  | cons a t ih =>
    cases t with
    | nil =>
      cases ys with
      | nil => simp [noTwoOps, junctOK]
      | cons b u =>
        show noTwoOps (a :: b :: u) = true ↔ _
        rw [show noTwoOps (a :: b :: u) = (!(isOp a && isOp b) && noTwoOps (b :: u))
          from rfl]
        simp only [noTwoOps, junctOK, List.getLast?_singleton, List.head?_cons,
          Bool.and_eq_true, true_and]
    | cons b t' =>
      rw [show ((a :: b :: t') ++ ys) = a :: ((b :: t') ++ ys) from rfl]
      rw [show ((b :: t') ++ ys) = b :: (t' ++ ys) from rfl]
      rw [show noTwoOps (a :: b :: (t' ++ ys)) =
        (!(isOp a && isOp b) && noTwoOps (b :: (t' ++ ys))) from rfl]
      rw [show noTwoOps (a :: b :: t') = (!(isOp a && isOp b) && noTwoOps (b :: t'))
        from rfl]
      have hj : junctOK (a :: b :: t') ys = junctOK (b :: t') ys := by
        simp [junctOK, List.getLast?_cons_cons]
      rw [hj]
      rw [show (b :: (t' ++ ys)) = ((b :: t') ++ ys) from rfl]
      simp only [Bool.and_eq_true, ih]
      tauto

lemma noTwoOps_of_forall {l : List Char} (h : ∀ c ∈ l, isOp c = false) :
    noTwoOps l = true := by
  induction l with
  | nil => rfl
  | cons a t ih =>
    cases t with
    | nil => rfl
    | cons b u =>
      rw [show noTwoOps (a :: b :: u) = (!(isOp a && isOp b) && noTwoOps (b :: u))
        from rfl]
      rw [h a (by simp), ih (fun c hc => h c (List.mem_cons_of_mem a hc))]
      rfl

lemma noTwoOps_take {l : List Char} (h : noTwoOps l = true) (k : Nat) :
    noTwoOps (l.take k) = true := by
  have hsplit : noTwoOps (l.take k ++ l.drop k) = true := by
    rwa [List.take_append_drop]
  exact ((noTwoOps_append _ _).mp hsplit).1

lemma noTwoOps_drop {l : List Char} (h : noTwoOps l = true) (k : Nat) :
    noTwoOps (l.drop k) = true := by
  have hsplit : noTwoOps (l.take k ++ l.drop k) = true := by
    rwa [List.take_append_drop]
  exact ((noTwoOps_append _ _).mp hsplit).2.2

lemma wsFree_iff (l : List Char) : wsFree l = true ↔ ∀ c ∈ l, isWS c = false := by
  unfold wsFree
  rw [List.all_eq_true]
  constructor
  · intro h c hc
    have := h c hc
    rwa [Bool.not_eq_true'] at this
  · intro h c hc
    rw [h c hc]
    rfl

lemma wsFree_sublist {l m : List Char} (h : wsFree l = true) (hs : m.Sublist l) :
    wsFree m = true := by
  rw [wsFree_iff] at h ⊢
  exact fun c hc => h c (hs.subset hc)

lemma wsFree_append (xs ys : List Char) :
    wsFree (xs ++ ys) = true ↔ wsFree xs = true ∧ wsFree ys = true := by
  unfold wsFree
  rw [List.all_append, Bool.and_eq_true]

lemma dropWhile_ws_eq_self {l : List Char} (h : wsFree l = true) :
    l.dropWhile isWS = l := by
  cases l with
  | nil => rfl
  | cons c t =>
    rw [List.dropWhile_cons, if_neg]
    rw [(wsFree_iff _).mp h c (by simp)]
    simp

lemma jsTrim_eq_self {l : List Char} (h : wsFree l = true) : jsTrim l = l := by
  unfold jsTrim
  rw [dropWhile_ws_eq_self h]
  rw [dropWhile_ws_eq_self (by rwa [wsFree, List.all_reverse])]
  exact List.reverse_reverse l

lemma mem_dropWhile_of_not {l : List Char} {c : Char} {p : Char → Bool}
    (hc : c ∈ l) (hp : p c = false) : c ∈ l.dropWhile p := by
  induction l with
  | nil => cases hc
  | cons a t ih =>
    rw [List.dropWhile_cons]
    by_cases ha : p a = true
    · rw [if_pos ha]
      rcases List.mem_cons.mp hc with rfl | hc'
      · rw [hp] at ha
        cases ha
      · exact ih hc'
    · rw [if_neg ha]
      exact hc

lemma jsTrim_mem {l : List Char} {c : Char} (hc : c ∈ l) (hw : isWS c = false) :
    c ∈ jsTrim l := by
  unfold jsTrim
  rw [List.mem_reverse]
  exact mem_dropWhile_of_not (List.mem_reverse.mpr (mem_dropWhile_of_not hc hw)) hw

lemma jsTrim_ne_nil {l : List Char} {c : Char} (hc : c ∈ l) (hw : isWS c = false) :
    jsTrim l ≠ [] :=
  List.ne_nil_of_mem (jsTrim_mem hc hw)

lemma ne_nil_of_jsTrim_ne_nil {l : List Char} (h : jsTrim l ≠ []) : l ≠ [] := by
  intro hl
  subst hl
  exact h rfl

/-! ### Sign-toggle machinery -/

lemma getLast?_drop_of_lt {l : List Char} {j : Nat} (hj : j < l.length) :
    (l.drop j).getLast? = l.getLast? := by
  have hne : l.drop j ≠ [] := by
    intro h
    rw [List.drop_eq_nil_iff] at h
    omega
  conv_rhs => rw [← List.take_append_drop j l]
  rw [List.getLast?_append_of_ne_nil _ hne]

lemma negParen_getLast {m : List Char} (h : negParen m = true) :
    m.getLast? = some ')' := by
  cases m with
  | nil => cases h
  | cons c1 m' =>
    cases m' with
    | nil => cases h
    | cons c2 rest =>
      simp only [negParen, Bool.and_eq_true, beq_iff_eq] at h
      cases rest with
      | nil => simpa using h.1.2
      | cons r rs =>
        rw [List.getLast?_cons_cons, List.getLast?_cons_cons]
        exact h.1.2

lemma negParen_wrap {n : List Char} (hn : matchesNumPat n = true) :
    negParen ('(' :: '-' :: (n ++ [')'])) = true := by
  simp [negParen, List.getLast?_concat, List.dropLast_concat, hn]

lemma negParen_shifted {q n : List Char} (hq : q ≠ []) :
    negParen (q ++ ('(' :: '-' :: (n ++ [')']))) = false := by
  cases q with
  | nil => exact absurd rfl hq
  | cons a q' =>
    cases q' with
    | nil =>
      simp [negParen]
    | cons b q'' =>
      rw [show ((a :: b :: q'') ++ ('(' :: '-' :: (n ++ [')']))) =
        a :: b :: (q'' ++ ('(' :: '-' :: (n ++ [')']))) from rfl]
      have hshape : q'' ++ ('(' :: '-' :: (n ++ [')'])) =
          (q'' ++ ('(' :: '-' :: n)) ++ [')'] := by
        simp
      have hdl : (q'' ++ ('(' :: '-' :: (n ++ [')']))).dropLast =
          q'' ++ ('(' :: '-' :: n) := by
        rw [hshape, List.dropLast_concat]
      have hnp : matchesNumPat ((q'' ++ ('(' :: '-' :: (n ++ [')']))).dropLast) = false := by
        rw [hdl]
        by_contra hcon
        rw [Bool.not_eq_false] at hcon
        have := matchesNumPat_chars hcon '(' (by simp)
        rcases this with hd | hd <;> revert hd <;> decide
      rw [show negParen (a :: b :: (q'' ++ ('(' :: '-' :: (n ++ [')'])))) =
          (((a == '(' && b == '-') &&
            ((q'' ++ ('(' :: '-' :: (n ++ [')']))).getLast? == some ')')) &&
            matchesNumPat ((q'' ++ ('(' :: '-' :: (n ++ [')']))).dropLast)) from rfl]
      rw [hnp, Bool.and_false]

lemma negStart_wrap {n : List Char} (p : List Char) (hn : matchesNumPat n = true) :
    negStart (p ++ ('(' :: '-' :: (n ++ [')']))) = some p.length := by
  rw [negStart, firstSuffixMatch_eq_some_iff]
  refine ⟨by simp, ?_, ?_⟩
  · rw [List.drop_left]
    exact negParen_wrap hn
  · intro j hj
    rw [List.drop_append_of_le_length (by omega)]
    refine negParen_shifted ?_
    intro hnil
    rw [List.drop_eq_nil_iff] at hnil
    omega

lemma toggleSign_of_negStart {l : List Char} {k : Nat} (hk : negStart l = some k) :
    toggleSign l = l.take k ++ ((l.drop k).drop 2).dropLast := by
  unfold toggleSign
  rw [hk]

lemma toggleSign_of_numStart {l : List Char} {k : Nat} (hneg : negStart l = none)
    (hk : numStart l = some k) :
    toggleSign l = l.take k ++ ('(' :: '-' :: (l.drop k ++ [')'])) := by
  unfold toggleSign
  rw [hneg, hk]

lemma toggleSign_unwrap_wrapped (p n : List Char) (hn : matchesNumPat n = true) :
    toggleSign (p ++ ('(' :: '-' :: (n ++ [')']))) = p ++ n := by
  rw [toggleSign_of_negStart (negStart_wrap p hn)]
  rw [List.take_left, List.drop_left]
  rw [show (('(' :: '-' :: (n ++ [')'])).drop 2) = n ++ [')'] from rfl]
  rw [List.dropLast_concat]

lemma isDigit_ne_rparen {d : Char} (hd : d.isDigit = true) : d ≠ ')' := by
  intro rfl_eq
  subst rfl_eq
  exact absurd hd (by decide)

lemma negStart_none_of_last_digit {l : List Char} {d : Char}
    (hlast : l.getLast? = some d) (hd : d.isDigit = true) : negStart l = none := by
  rw [negStart, firstSuffixMatch_eq_none_iff]
  intro j hj
  by_contra hcon
  rw [Bool.not_eq_false] at hcon
  have h1 := negParen_getLast hcon
  rw [getLast?_drop_of_lt hj, hlast] at h1
  exact isDigit_ne_rparen hd (by injection h1)

lemma numStart_last_digit {l : List Char} {k : Nat} (hk : numStart l = some k) :
    ∃ d, l.getLast? = some d ∧ d.isDigit = true := by
  obtain ⟨hlt, hmat, -⟩ := (firstSuffixMatch_eq_some_iff _ _ _).mp hk
  obtain ⟨d, hd, hdig⟩ := matchesNumPat_getLast hmat
  exact ⟨d, by rw [← getLast?_drop_of_lt hlt]; exact hd, hdig⟩

lemma toggleSign_toggleSign_of_numStart {l : List Char} {k : Nat}
    (hk : numStart l = some k) : toggleSign (toggleSign l) = l := by
  obtain ⟨d, hlast, hdig⟩ := numStart_last_digit hk
  obtain ⟨hlt, hmat, -⟩ := (firstSuffixMatch_eq_some_iff _ _ _).mp hk
  rw [toggleSign_of_numStart (negStart_none_of_last_digit hlast hdig) hk]
  rw [toggleSign_unwrap_wrapped _ _ hmat]
  exact List.take_append_drop k l

lemma toggleSign_toggleSign_wrapped (p n : List Char) (hn : matchesNumPat n = true)
    (hmin : numStart (p ++ n) = some p.length) :
    toggleSign (toggleSign (p ++ ('(' :: '-' :: (n ++ [')'])))) =
      p ++ ('(' :: '-' :: (n ++ [')'])) := by
  rw [toggleSign_unwrap_wrapped p n hn]
  obtain ⟨d, hd, hdig⟩ := matchesNumPat_getLast hn
  have hlast : (p ++ n).getLast? = some d := by
    rw [List.getLast?_append_of_ne_nil _ (matchesNumPat_ne_nil hn)]
    exact hd
  rw [toggleSign_of_numStart (negStart_none_of_last_digit hlast hdig) hmin]
  rw [List.take_left, List.drop_left]

/-! ### Junction helpers -/

lemma junctOK_of_head_not_op {ys : List Char} {b : Char} (hb : ys.head? = some b)
    (hop : isOp b = false) (xs : List Char) : junctOK xs ys = true := by
  unfold junctOK
  rw [hb]
  cases xs.getLast? with
  | none => rfl
  | some a =>
    show (!(isOp a && isOp b)) = true
    rw [hop, Bool.and_false]
    rfl

lemma junctOK_of_lastNotOp {xs : List Char} (h : lastNotOp xs = true)
    (ys : List Char) : junctOK xs ys = true := by
  unfold junctOK
  unfold lastNotOp at h
  cases hx : xs.getLast? with
  | none => cases ys.head? <;> rfl
  | some a =>
    rw [hx] at h
    have h' : isOp a = false := by
      have hh : (!isOp a) = true := h
      rwa [Bool.not_eq_true'] at hh
    cases ys.head? with
    | none => rfl
    | some b =>
      show (!(isOp a && isOp b)) = true
      rw [h', Bool.false_and]
      rfl

lemma noTwoOps_cons_iff (a : Char) (l : List Char) :
    noTwoOps (a :: l) = true ↔
      (∀ b, l.head? = some b → (isOp a && isOp b) = false) ∧ noTwoOps l = true := by
  cases l with
  | nil => simp [noTwoOps]
  | cons b t =>
    rw [show noTwoOps (a :: b :: t) = (!(isOp a && isOp b) && noTwoOps (b :: t))
      from rfl]
    simp only [Bool.and_eq_true, Bool.not_eq_true', List.head?_cons]
    constructor
    · rintro ⟨h1, h2⟩
      exact ⟨fun c hc => by injection hc with hc; rw [← hc]; exact h1, h2⟩
    · rintro ⟨h1, h2⟩
      exact ⟨h1 b rfl, h2⟩

lemma not_op_of_valueToken {c : Char} (h : endsWithValueToken c = true) :
    isOp c = false := by
  unfold endsWithValueToken at h
  simp only [Bool.or_eq_true, decide_eq_true_eq] at h
  rcases h with ((hd | rfl) | rfl) | rfl
  · exact not_op_of_isDigit hd
  · decide
  · decide
  · decide

/-! ### Preservation lemmas for the editing operations -/

lemma toggleSign_pres {l : List Char} (h2 : noTwoOps l = true) (hw : wsFree l = true) :
    noTwoOps (toggleSign l) = true ∧ wsFree (toggleSign l) = true := by
  cases hneg : negStart l with
  | some k =>
    obtain ⟨hlt, hpar, -⟩ := (firstSuffixMatch_eq_some_iff _ _ _).mp hneg
    rw [toggleSign_of_negStart hneg]
    have hrest : ((l.drop k).drop 2).dropLast =
        ((l.drop k).drop 2).dropLast := rfl
    obtain ⟨mid, hmid, hmidpat⟩ : ∃ mid, l.drop k = '(' :: '-' :: (mid ++ [')']) ∧
        matchesNumPat mid = true := by
      cases hm : l.drop k with
      | nil => rw [hm] at hpar; cases hpar
      | cons c1 m' =>
        cases m' with
        | nil => rw [hm] at hpar; cases hpar
        | cons c2 rest =>
          rw [hm] at hpar
          simp only [negParen, Bool.and_eq_true, beq_iff_eq] at hpar
          obtain ⟨⟨⟨rfl, rfl⟩, hlastp⟩, hdl⟩ := hpar
          have hrne : rest ≠ [] := by
            intro hr
            rw [hr] at hlastp
            cases hlastp
          have hsplit : rest.dropLast ++ [')'] = rest := by
            have := List.dropLast_append_getLast hrne
            rw [List.getLast?_eq_getLast rest hrne] at hlastp
            injection hlastp with hlastp
            rw [hlastp] at this
            exact this
          exact ⟨rest.dropLast, by rw [hsplit], hdl⟩
    rw [hmid]
    rw [show (('(' :: '-' :: (mid ++ [')'])).drop 2) = mid ++ [')'] from rfl]
    rw [List.dropLast_concat]
    obtain ⟨d, hd, hdig⟩ := matchesNumPat_head hmidpat
    constructor
    · rw [noTwoOps_append]
      exact ⟨noTwoOps_take h2 k,
        junctOK_of_head_not_op hd (not_op_of_isDigit hdig) _,
        noTwoOps_of_forall (matchesNumPat_not_op hmidpat)⟩
    · rw [wsFree_append]
      exact ⟨wsFree_sublist hw (List.take_sublist k l),
        (wsFree_iff _).mpr (matchesNumPat_not_ws hmidpat)⟩
  | none =>
    cases hnum : numStart l with
    | some k =>
      obtain ⟨hlt, hpat, -⟩ := (firstSuffixMatch_eq_some_iff _ _ _).mp hnum
      rw [toggleSign_of_numStart hneg hnum]
      obtain ⟨d, hd, hdig⟩ := matchesNumPat_head hpat
      constructor
      · rw [noTwoOps_append]
        refine ⟨noTwoOps_take h2 k,
          junctOK_of_head_not_op
            (show ('(' :: '-' :: (l.drop k ++ [')'])).head? = some '(' from rfl)
            (by decide) _, ?_⟩
        rw [noTwoOps_cons_iff]
        refine ⟨fun b hb => by injection hb with hb; rw [← hb]; decide, ?_⟩
        rw [noTwoOps_cons_iff]
        constructor
        · intro b hb
          rw [List.head?_append_of_ne_nil _ (matchesNumPat_ne_nil hpat), hd] at hb
          injection hb with hb
          rw [← hb, not_op_of_isDigit hdig, Bool.and_false]
        · rw [noTwoOps_append]
          obtain ⟨dl, hdl, hdigl⟩ := matchesNumPat_getLast hpat
          refine ⟨noTwoOps_of_forall (matchesNumPat_not_op hpat), ?_, rfl⟩
          refine junctOK_of_lastNotOp ?_ _
          unfold lastNotOp
          rw [hdl]
          show (!isOp dl) = true
          rw [not_op_of_isDigit hdigl]
          rfl
      · rw [wsFree_append]
        refine ⟨wsFree_sublist hw (List.take_sublist k l), ?_⟩
        rw [wsFree_iff]
        intro c hc
        rcases List.mem_cons.mp hc with rfl | hc
        · decide
        rcases List.mem_cons.mp hc with rfl | hc
        · decide
        rw [List.mem_append] at hc
        rcases hc with hc | hc
        · exact matchesNumPat_not_ws hpat c hc
        · rcases List.mem_singleton.mp hc with rfl
          decide
    | none =>
      have ht : toggleSign l = if l.isEmpty then ['-'] else l := by
        unfold toggleSign
        rw [hneg, hnum]
      rw [ht]
      by_cases hl : l.isEmpty
      · rw [if_pos hl]
        exact ⟨by decide, by decide⟩
      · rw [if_neg hl]
        exact ⟨h2, hw⟩

/-! ### Equation lemmas for the editing operations -/

lemma applyPercent_of_numStart {l : List Char} {k : Nat} (h : numStart l = some k) :
    applyPercent l =
      l.take k ++ ('(' :: (l.drop k ++ ('/' :: '1' :: '0' :: '0' :: ')' :: []))) := by
  unfold applyPercent replaceLastNumber
  rw [h]

lemma applyPercent_of_none {l : List Char} (h : numStart l = none) :
    applyPercent l = l := by
  unfold applyPercent replaceLastNumber
  rw [h]

lemma sqrtPress_of_numStart {prev : List Char} {k : Nat} (h : numStart prev = some k) :
    sqrtPress prev = prev.take k ++ ("sqrt(".data ++ (prev.drop k ++ [')'])) := by
  unfold sqrtPress
  rw [h]

lemma needsImplicitMultiply_s (prev : List Char) :
    needsImplicitMultiply prev 's' = false := by
  unfold needsImplicitMultiply
  cases prev.getLast? with
  | none => rfl
  | some last =>
    show (endsWithValueToken last &&
      (decide ('s' = '(') || decide ('s' = 'π') || decide ('s' = 'e'))) = false
    rw [show (decide ('s' = '(') || decide ('s' = 'π') || decide ('s' = 'e')) = false
      from rfl]
    rw [Bool.and_false]

lemma appendToken_eq_of_head {prev tok : List Char} {c : Char}
    (hh : tok.head? = some c) :
    appendToken prev tok =
      if needsImplicitMultiply prev c then prev ++ ('×' :: tok) else prev ++ tok := by
  unfold appendToken
  rw [hh]

lemma appendToken_sqrt (prev : List Char) :
    appendToken prev "sqrt(".data = prev ++ "sqrt(".data := by
  rw [appendToken_eq_of_head (show ("sqrt(".data).head? = some 's' from rfl)]
  rw [needsImplicitMultiply_s]
  simp

lemma sqrtPress_of_none {prev : List Char} (h : numStart prev = none) :
    sqrtPress prev = prev ++ "sqrt(".data := by
  unfold sqrtPress
  rw [h]
  exact appendToken_sqrt prev

lemma squarePress_eq_some {prev : List Char} {last : Char}
    (hlast : prev.getLast? = some last) :
    squarePress prev = if endsWithValueToken last then prev ++ ['^', '2'] else prev := by
  unfold squarePress
  rw [hlast]

lemma powPress_eq_some {prev : List Char} {last : Char}
    (hlast : prev.getLast? = some last) :
    powPress prev = if endsWithValueToken last then prev ++ ['^'] else prev := by
  unfold powPress
  rw [hlast]

lemma operPress_eq_of_getLast {res lbl prev : List Char} {last : Char}
    (hlast : prev.getLast? = some last) :
    operPress res lbl prev = if isOp last then prev.dropLast ++ lbl else prev ++ lbl := by
  have hpne : prev ≠ [] := by
    intro h
    rw [h] at hlast
    cases hlast
  unfold operPress
  rw [if_neg (by simp [List.isEmpty_iff, hpne]), hlast]

lemma operPress_empty (res lbl : List Char) :
    operPress res lbl [] = if res ≠ "0".data then res ++ lbl else [] := by
  rfl

/-! ### More preservation lemmas -/

lemma goodOut_iff (l : List Char) :
    GoodOut l = true ↔ noTwoOps l = true ∧ wsFree l = true ∧ lastNotOp l = true := by
  unfold GoodOut
  rw [Bool.and_eq_true, Bool.and_eq_true, and_assoc]

lemma wsFree_cons (c : Char) (l : List Char) :
    wsFree (c :: l) = true ↔ isWS c = false ∧ wsFree l = true := by
  unfold wsFree
  rw [List.all_cons, Bool.and_eq_true, Bool.not_eq_true']

lemma needsImplicitMultiply_true_elim {prev : List Char} {c : Char}
    (h : needsImplicitMultiply prev c = true) :
    ∃ last, prev.getLast? = some last ∧ endsWithValueToken last = true := by
  unfold needsImplicitMultiply at h
  cases hl : prev.getLast? with
  | none => rw [hl] at h; cases h
  | some last =>
    rw [hl] at h
    have h' : (endsWithValueToken last &&
        (decide (c = '(') || decide (c = 'π') || decide (c = 'e'))) = true := h
    rw [Bool.and_eq_true] at h'
    exact ⟨last, rfl, h'.1⟩

lemma lastNotOp_of_junct_op {xs : List Char} {b : Char}
    (hj : junctOK xs [b] = true) (hb : isOp b = true) : lastNotOp xs = true := by
  unfold junctOK at hj
  unfold lastNotOp
  cases hx : xs.getLast? with
  | none => rfl
  | some a =>
    rw [hx] at hj
    have hj' : (!(isOp a && isOp b)) = true := hj
    show (!isOp a) = true
    cases ha : isOp a
    · rfl
    · rw [ha, hb] at hj'
      exact absurd hj' (by decide)

lemma applyPercent_pres {l : List Char} (h2 : noTwoOps l = true)
    (hw : wsFree l = true) :
    noTwoOps (applyPercent l) = true ∧ wsFree (applyPercent l) = true := by
  cases hnum : numStart l with
  | none =>
    rw [applyPercent_of_none hnum]
    exact ⟨h2, hw⟩
  | some k =>
    obtain ⟨hlt, hpat, -⟩ := (firstSuffixMatch_eq_some_iff _ _ _).mp hnum
    rw [applyPercent_of_numStart hnum]
    obtain ⟨d, hd, hdig⟩ := matchesNumPat_head hpat
    obtain ⟨dl, hdl, hdigl⟩ := matchesNumPat_getLast hpat
    constructor
    · rw [noTwoOps_append]
      refine ⟨noTwoOps_take h2 k,
        junctOK_of_head_not_op
          (show ('(' :: (l.drop k ++ ('/' :: '1' :: '0' :: '0' :: ')' :: []))).head? =
            some '(' from rfl) (by decide) _, ?_⟩
      rw [noTwoOps_cons_iff]
      refine ⟨fun b _ => by rw [show isOp '(' = false from rfl, Bool.false_and], ?_⟩
      rw [noTwoOps_append]
      refine ⟨noTwoOps_of_forall (matchesNumPat_not_op hpat), ?_, by decide⟩
      refine junctOK_of_lastNotOp ?_ _
      unfold lastNotOp
      rw [hdl]
      show (!isOp dl) = true
      rw [not_op_of_isDigit hdigl]
      rfl
    · rw [wsFree_append]
      refine ⟨wsFree_sublist hw (List.take_sublist k l), ?_⟩
      rw [wsFree_cons]
      refine ⟨by decide, ?_⟩
      rw [wsFree_append]
      exact ⟨(wsFree_iff _).mpr (matchesNumPat_not_ws hpat), by decide⟩

lemma appendToken_pres {prev tok : List Char} (h2 : noTwoOps prev = true)
    (hw : wsFree prev = true) (ht2 : noTwoOps tok = true) (htw : wsFree tok = true)
    (hth : ∀ b, tok.head? = some b → isOp b = false) :
    noTwoOps (appendToken prev tok) = true ∧ wsFree (appendToken prev tok) = true := by
  cases hh : tok.head? with
  | none =>
    rw [List.head?_eq_none_iff] at hh
    subst hh
    show noTwoOps (prev ++ []) = true ∧ wsFree (prev ++ []) = true
    rw [List.append_nil]
    exact ⟨h2, hw⟩
  | some c =>
    rw [appendToken_eq_of_head hh]
    by_cases him : needsImplicitMultiply prev c = true
    · rw [if_pos him]
      obtain ⟨last, hlast, hval⟩ := needsImplicitMultiply_true_elim him
      constructor
      · rw [noTwoOps_append]
        refine ⟨h2, ?_, ?_⟩
        · refine junctOK_of_lastNotOp ?_ _
          unfold lastNotOp
          rw [hlast]
          show (!isOp last) = true
          rw [not_op_of_valueToken hval]
          rfl
        · rw [noTwoOps_cons_iff]
          refine ⟨fun b hb => ?_, ht2⟩
          rw [hh] at hb
          injection hb with hb
          rw [← hb, hth c hh, Bool.and_false]
      · rw [wsFree_append, wsFree_cons]
        exact ⟨hw, by decide, htw⟩
    · rw [if_neg him]
      constructor
      · rw [noTwoOps_append]
        exact ⟨h2, junctOK_of_head_not_op hh (hth c hh) _, ht2⟩
      · rw [wsFree_append]
        exact ⟨hw, htw⟩

lemma squarePress_pres {prev : List Char} (h2 : noTwoOps prev = true)
    (hw : wsFree prev = true) :
    noTwoOps (squarePress prev) = true ∧ wsFree (squarePress prev) = true := by
  cases hlast : prev.getLast? with
  | none =>
    unfold squarePress
    rw [hlast]
    exact ⟨h2, hw⟩
  | some last =>
    rw [squarePress_eq_some hlast]
    by_cases hv : endsWithValueToken last = true
    · rw [if_pos hv]
      constructor
      · rw [noTwoOps_append]
        exact ⟨h2, junctOK_of_head_not_op (show (['^', '2'].head? = some '^') from rfl)
          (by decide) _, by decide⟩
      · rw [wsFree_append]
        exact ⟨hw, by decide⟩
    · rw [if_neg hv]
      exact ⟨h2, hw⟩

lemma powPress_pres {prev : List Char} (h2 : noTwoOps prev = true)
    (hw : wsFree prev = true) :
    noTwoOps (powPress prev) = true ∧ wsFree (powPress prev) = true := by
  cases hlast : prev.getLast? with
  | none =>
    unfold powPress
    rw [hlast]
    exact ⟨h2, hw⟩
  | some last =>
    rw [powPress_eq_some hlast]
    by_cases hv : endsWithValueToken last = true
    · rw [if_pos hv]
      constructor
      · rw [noTwoOps_append]
        exact ⟨h2, junctOK_of_head_not_op (show (['^'].head? = some '^') from rfl)
          (by decide) _, by decide⟩
      · rw [wsFree_append]
        exact ⟨hw, by decide⟩
    · rw [if_neg hv]
      exact ⟨h2, hw⟩

lemma sqrtPress_pres {prev : List Char} (h2 : noTwoOps prev = true)
    (hw : wsFree prev = true) :
    noTwoOps (sqrtPress prev) = true ∧ wsFree (sqrtPress prev) = true := by
  cases hnum : numStart prev with
  | none =>
    rw [sqrtPress_of_none hnum]
    constructor
    · rw [noTwoOps_append]
      exact ⟨h2, junctOK_of_head_not_op (show (("sqrt(".data).head? = some 's') from rfl)
        (by decide) _, by decide⟩
    · rw [wsFree_append]
      exact ⟨hw, by decide⟩
  | some k =>
    obtain ⟨hlt, hpat, -⟩ := (firstSuffixMatch_eq_some_iff _ _ _).mp hnum
    rw [sqrtPress_of_numStart hnum]
    obtain ⟨dl, hdl, hdigl⟩ := matchesNumPat_getLast hpat
    constructor
    · rw [noTwoOps_append]
      refine ⟨noTwoOps_take h2 k,
        junctOK_of_head_not_op
          (show ("sqrt(".data ++ (prev.drop k ++ [')'])).head? = some 's' from rfl)
          (by decide) _, ?_⟩
      rw [noTwoOps_append]
      refine ⟨by decide, junctOK_of_lastNotOp (by decide) _, ?_⟩
      rw [noTwoOps_append]
      refine ⟨noTwoOps_of_forall (matchesNumPat_not_op hpat), ?_, by decide⟩
      refine junctOK_of_lastNotOp ?_ _
      unfold lastNotOp
      rw [hdl]
      show (!isOp dl) = true
      rw [not_op_of_isDigit hdigl]
      rfl
    · rw [wsFree_append, wsFree_append]
      exact ⟨wsFree_sublist hw (List.take_sublist k prev), by decide,
        by rw [wsFree_append]
           exact ⟨(wsFree_iff _).mpr (matchesNumPat_not_ws hpat), by decide⟩⟩

lemma operPress_pres {res prev : List Char} {c : Char} (hres : GoodOut res = true)
    (h2 : noTwoOps prev = true) (hw : wsFree prev = true) (hcw : isWS c = false) :
    noTwoOps (operPress res [c] prev) = true ∧ wsFree (operPress res [c] prev) = true := by
  obtain ⟨hr2, hrw, hrl⟩ := (goodOut_iff res).mp hres
  cases hp : prev with
  | nil =>
    rw [operPress_empty]
    by_cases hr : res ≠ "0".data
    · rw [if_pos hr]
      constructor
      · rw [noTwoOps_append]
        exact ⟨hr2, junctOK_of_lastNotOp hrl _, rfl⟩
      · rw [wsFree_append, wsFree_cons]
        exact ⟨hrw, hcw, rfl⟩
    · rw [if_neg hr]
      exact ⟨rfl, rfl⟩
  | cons a t =>
    have hpne : prev ≠ [] := by rw [hp]; exact List.cons_ne_nil a t
    obtain ⟨last, hlast⟩ := exists_getLast?_of_ne_nil hpne
    rw [← hp]
    rw [operPress_eq_of_getLast hlast]
    by_cases hop : isOp last = true
    · rw [if_pos hop]
      have hdecomp : prev.dropLast ++ [last] = prev := by
        have hg := List.dropLast_append_getLast hpne
        rw [List.getLast?_eq_getLast prev hpne] at hlast
        injection hlast with hlast
        rw [hlast] at hg
        exact hg
      have h2' : noTwoOps (prev.dropLast ++ [last]) = true := by rw [hdecomp]; exact h2
      have hjl := ((noTwoOps_append _ _).mp h2').2.1
      have hlno := lastNotOp_of_junct_op hjl hop
      constructor
      · rw [noTwoOps_append]
        refine ⟨?_, junctOK_of_lastNotOp hlno _, rfl⟩
        rw [List.dropLast_eq_take]
        exact noTwoOps_take h2 _
      · rw [wsFree_append, wsFree_cons]
        exact ⟨wsFree_sublist hw (List.dropLast_sublist prev), hcw, rfl⟩
    · rw [if_neg hop]
      constructor
      · rw [noTwoOps_append]
        refine ⟨h2, junctOK_of_lastNotOp ?_ _, rfl⟩
        unfold lastNotOp
        rw [hlast]
        show (!isOp last) = true
        rw [Bool.not_eq_true] at hop
        rw [hop]
        rfl
      · rw [wsFree_append, wsFree_cons]
        exact ⟨hw, hcw, rfl⟩

lemma evaluateNow_goodOut {ev : List Char → Option JSNumber} (hev : EvOK ev)
    (e : List Char) : GoodOut (evaluateNow ev e) = true := by
  unfold evaluateNow
  cases hc : ev (sanitize e) with
  | none => decide
  | some v =>
    show GoodOut (formatResult v) = true
    unfold formatResult
    by_cases hf : v.finite = true
    · rw [if_pos hf]
      exact hev _ v hc
    · rw [if_neg hf]
      decide

/-! ### The editor invariant for adjacent operators -/

/-- Joint invariant carried through the key-press induction: the buffer has
no adjacent operator characters and no whitespace, and the displayed result
is a well-formed result string. -/
def Invariant5 (s : CalcState) : Prop :=
  noTwoOps s.expression = true ∧ wsFree s.expression = true ∧ GoodOut s.result = true

lemma digitPress_pres {e : List Char} (c : Char) (hcop : isOp c = false)
    (hcw : isWS c = false) (h2 : noTwoOps e = true) (hw : wsFree e = true) :
    noTwoOps (jsTrim (e ++ [c])) = true ∧ wsFree (jsTrim (e ++ [c])) = true := by
  have hwa : wsFree (e ++ [c]) = true := by
    rw [wsFree_append]
    exact ⟨hw, (wsFree_cons c []).mpr ⟨hcw, rfl⟩⟩
  rw [jsTrim_eq_self hwa]
  constructor
  · rw [noTwoOps_append]
    exact ⟨h2, junctOK_of_head_not_op (show ([c].head? = some c) from rfl) hcop _, rfl⟩
  · exact hwa

lemma onKeyPress_pres_inv5 {ev : List Char → Option JSNumber} (hev : EvOK ev)
    (lbl : String) {s : CalcState} (h : Invariant5 s) :
    Invariant5 (onKeyPress ev lbl s) := by
  obtain ⟨h2, hw, hres⟩ := h
  unfold onKeyPress
  by_cases hC : lbl = "C" ∨ lbl = "AC"
  · rw [if_pos hC]
    exact ⟨rfl, rfl, by decide⟩
  rw [if_neg hC]
  by_cases hpm : lbl = "±"
  · rw [if_pos hpm]
    obtain ⟨a, b⟩ := toggleSign_pres h2 hw
    exact ⟨a, b, hres⟩
  rw [if_neg hpm]
  by_cases hpc : lbl = "%"
  · rw [if_pos hpc]
    obtain ⟨a, b⟩ := applyPercent_pres h2 hw
    exact ⟨a, b, hres⟩
  rw [if_neg hpc]
  by_cases hui : lbl = "⋯ More" ∨ lbl = "DEG" ∨ lbl = "RAD"
  · rw [if_pos hui]
    exact ⟨h2, hw, hres⟩
  rw [if_neg hui]
  by_cases hpe : lbl = "π" ∨ lbl = "e"
  · rw [if_pos hpe]
    rcases hpe with rfl | rfl
    · obtain ⟨a, b⟩ := @appendToken_pres s.expression "π".data h2 hw (by decide)
        (by decide)
        (fun b hb => by
          have hb' : some 'π' = some b := hb
          injection hb' with hb'
          rw [← hb']
          decide)
      exact ⟨a, b, hres⟩
    · obtain ⟨a, b⟩ := @appendToken_pres s.expression "e".data h2 hw (by decide)
        (by decide)
        (fun b hb => by
          have hb' : some 'e' = some b := hb
          injection hb' with hb'
          rw [← hb']
          decide)
      exact ⟨a, b, hres⟩
  rw [if_neg hpe]
  by_cases hsq : lbl = "x²"
  · rw [if_pos hsq]
    obtain ⟨a, b⟩ := squarePress_pres h2 hw
    exact ⟨a, b, hres⟩
  rw [if_neg hsq]
  by_cases hrt : lbl = "√"
  · rw [if_pos hrt]
    obtain ⟨a, b⟩ := sqrtPress_pres h2 hw
    exact ⟨a, b, hres⟩
  rw [if_neg hrt]
  by_cases hxy : lbl = "x^y"
  · rw [if_pos hxy]
    obtain ⟨a, b⟩ := powPress_pres h2 hw
    exact ⟨a, b, hres⟩
  rw [if_neg hxy]
  by_cases heq : lbl = "="
  · rw [if_pos heq]
    by_cases htrim : jsTrim s.expression = []
    · rw [if_pos htrim]
      exact ⟨h2, hw, hres⟩
    · rw [if_neg htrim]
      show Invariant5 (if evaluateNow ev s.expression ≠ "Error".data
        then ⟨evaluateNow ev s.expression, evaluateNow ev s.expression⟩
        else ⟨s.expression, evaluateNow ev s.expression⟩)
      have hgood := evaluateNow_goodOut hev s.expression
      obtain ⟨hg2, hgw, -⟩ := (goodOut_iff _).mp hgood
      by_cases hr : evaluateNow ev s.expression ≠ "Error".data
      · rw [if_pos hr]
        exact ⟨hg2, hgw, hgood⟩
      · rw [if_neg hr]
        exact ⟨h2, hw, hgood⟩
  rw [if_neg heq]
  by_cases hop : lbl = "+" ∨ lbl = "−" ∨ lbl = "×" ∨ lbl = "÷"
  · rw [if_pos hop]
    rcases hop with rfl | rfl | rfl | rfl
    · obtain ⟨a, b⟩ := operPress_pres hres h2 hw (show isWS '+' = false from rfl)
      exact ⟨a, b, hres⟩
    · obtain ⟨a, b⟩ := operPress_pres hres h2 hw (show isWS '−' = false from rfl)
      exact ⟨a, b, hres⟩
    · obtain ⟨a, b⟩ := operPress_pres hres h2 hw (show isWS '×' = false from rfl)
      exact ⟨a, b, hres⟩
    · obtain ⟨a, b⟩ := operPress_pres hres h2 hw (show isWS '÷' = false from rfl)
      exact ⟨a, b, hres⟩
  rw [if_neg hop]
  by_cases hpar : lbl = "(" ∨ lbl = ")"
  · rw [if_pos hpar]
    rcases hpar with rfl | rfl
    · obtain ⟨a, b⟩ := @appendToken_pres s.expression "(".data h2 hw (by decide)
        (by decide)
        (fun b hb => by
          have hb' : some '(' = some b := hb
          injection hb' with hb'
          rw [← hb']
          decide)
      exact ⟨a, b, hres⟩
    · obtain ⟨a, b⟩ := @appendToken_pres s.expression ")".data h2 hw (by decide)
        (by decide)
        (fun b hb => by
          have hb' : some ')' = some b := hb
          injection hb' with hb'
          rw [← hb']
          decide)
      exact ⟨a, b, hres⟩
  rw [if_neg hpar]
  by_cases hdig : lbl = "." ∨ lbl = "0" ∨ lbl = "1" ∨ lbl = "2" ∨ lbl = "3" ∨
      lbl = "4" ∨ lbl = "5" ∨ lbl = "6" ∨ lbl = "7" ∨ lbl = "8" ∨ lbl = "9"
  · rw [if_pos hdig]
    rcases hdig with rfl | rfl | rfl | rfl | rfl | rfl | rfl | rfl | rfl | rfl | rfl
    · obtain ⟨a, b⟩ := @digitPress_pres s.expression '.' (by decide) (by decide) h2 hw
      exact ⟨a, b, hres⟩
    · obtain ⟨a, b⟩ := @digitPress_pres s.expression '0' (by decide) (by decide) h2 hw
      exact ⟨a, b, hres⟩
    · obtain ⟨a, b⟩ := @digitPress_pres s.expression '1' (by decide) (by decide) h2 hw
      exact ⟨a, b, hres⟩
    · obtain ⟨a, b⟩ := @digitPress_pres s.expression '2' (by decide) (by decide) h2 hw
      exact ⟨a, b, hres⟩
    · obtain ⟨a, b⟩ := @digitPress_pres s.expression '3' (by decide) (by decide) h2 hw
      exact ⟨a, b, hres⟩
    · obtain ⟨a, b⟩ := @digitPress_pres s.expression '4' (by decide) (by decide) h2 hw
      exact ⟨a, b, hres⟩
    · obtain ⟨a, b⟩ := @digitPress_pres s.expression '5' (by decide) (by decide) h2 hw
      exact ⟨a, b, hres⟩
    · obtain ⟨a, b⟩ := @digitPress_pres s.expression '6' (by decide) (by decide) h2 hw
      exact ⟨a, b, hres⟩
    · obtain ⟨a, b⟩ := @digitPress_pres s.expression '7' (by decide) (by decide) h2 hw
      exact ⟨a, b, hres⟩
    · obtain ⟨a, b⟩ := @digitPress_pres s.expression '8' (by decide) (by decide) h2 hw
      exact ⟨a, b, hres⟩
    · obtain ⟨a, b⟩ := @digitPress_pres s.expression '9' (by decide) (by decide) h2 hw
      exact ⟨a, b, hres⟩
  rw [if_neg hdig]
  exact ⟨h2, hw, hres⟩

lemma runKeys_cons (ev : List Char → Option JSNumber) (k : String) (ks : List String)
    (s : CalcState) : runKeys ev (k :: ks) s = runKeys ev ks (onKeyPress ev k s) := rfl

lemma runKeys_inv5 {ev : List Char → Option JSNumber} (hev : EvOK ev)
    (keys : List String) : Invariant5 (runKeys ev keys initState) := by
  suffices h : ∀ s, Invariant5 s → Invariant5 (runKeys ev keys s) from
    h initState ⟨rfl, rfl, by decide⟩
  induction keys with
  | nil => exact fun s hs => hs
  | cons k ks ih => exact fun s hs => ih _ (onKeyPress_pres_inv5 hev k hs)

/-! ### Nonemptiness preservation, for the error-state invariant -/

lemma negParen_decomp {m : List Char} (h : negParen m = true) :
    ∃ mid, m = '(' :: '-' :: (mid ++ [')']) ∧ matchesNumPat mid = true := by
  cases m with
  | nil => cases h
  | cons c1 m' =>
    cases m' with
    | nil => cases h
    | cons c2 rest =>
      simp only [negParen, Bool.and_eq_true, beq_iff_eq] at h
      obtain ⟨⟨⟨rfl, rfl⟩, hlastp⟩, hdl⟩ := h
      have hrne : rest ≠ [] := by
        intro hr
        rw [hr] at hlastp
        cases hlastp
      have hsplit : rest.dropLast ++ [')'] = rest := by
        have hg := List.dropLast_append_getLast hrne
        rw [List.getLast?_eq_getLast rest hrne] at hlastp
        injection hlastp with hlastp
        rw [hlastp] at hg
        exact hg
      exact ⟨rest.dropLast, by rw [hsplit], hdl⟩

lemma toggleSign_ne_nil (l : List Char) : toggleSign l ≠ [] := by
  cases hneg : negStart l with
  | some k =>
    obtain ⟨hlt, hpar, -⟩ := (firstSuffixMatch_eq_some_iff _ _ _).mp hneg
    rw [toggleSign_of_negStart hneg]
    obtain ⟨mid, hmid, hmidpat⟩ := negParen_decomp hpar
    rw [hmid]
    rw [show (('(' :: '-' :: (mid ++ [')'])).drop 2) = mid ++ [')'] from rfl]
    rw [List.dropLast_concat]
    intro hcontra
    exact matchesNumPat_ne_nil hmidpat (List.append_eq_nil.mp hcontra).2
  | none =>
    cases hnum : numStart l with
    | some k =>
      rw [toggleSign_of_numStart hneg hnum]
      intro hcontra
      cases (List.append_eq_nil.mp hcontra).2
    | none =>
      have ht : toggleSign l = if l.isEmpty then ['-'] else l := by
        unfold toggleSign
        rw [hneg, hnum]
      rw [ht]
      by_cases hl : l.isEmpty
      · rw [if_pos hl]
        exact List.cons_ne_nil _ _
      · rw [if_neg hl]
        intro hcontra
        rw [hcontra] at hl
        exact hl rfl

lemma applyPercent_ne_nil {l : List Char} (hne : l ≠ []) : applyPercent l ≠ [] := by
  cases hnum : numStart l with
  | none =>
    rw [applyPercent_of_none hnum]
    exact hne
  | some k =>
    rw [applyPercent_of_numStart hnum]
    intro hcontra
    cases (List.append_eq_nil.mp hcontra).2

lemma appendToken_ne_nil {prev tok : List Char} (ht : tok ≠ []) :
    appendToken prev tok ≠ [] := by
  cases hh : tok.head? with
  | none => exact absurd (List.head?_eq_none_iff.mp hh) ht
  | some c =>
    rw [appendToken_eq_of_head hh]
    by_cases him : needsImplicitMultiply prev c = true
    · rw [if_pos him]
      intro hcontra
      cases (List.append_eq_nil.mp hcontra).2
    · rw [if_neg him]
      intro hcontra
      exact ht (List.append_eq_nil.mp hcontra).2

lemma squarePress_ne_nil {prev : List Char} (h : prev ≠ []) :
    squarePress prev ≠ [] := by
  cases hlast : prev.getLast? with
  | none =>
    unfold squarePress
    rw [hlast]
    exact h
  | some last =>
    rw [squarePress_eq_some hlast]
    by_cases hv : endsWithValueToken last = true
    · rw [if_pos hv]
      intro hcontra
      cases (List.append_eq_nil.mp hcontra).2
    · rw [if_neg hv]
      exact h

lemma powPress_ne_nil {prev : List Char} (h : prev ≠ []) : powPress prev ≠ [] := by
  cases hlast : prev.getLast? with
  | none =>
    unfold powPress
    rw [hlast]
    exact h
  | some last =>
    rw [powPress_eq_some hlast]
    by_cases hv : endsWithValueToken last = true
    · rw [if_pos hv]
      intro hcontra
      cases (List.append_eq_nil.mp hcontra).2
    · rw [if_neg hv]
      exact h

lemma sqrtPress_ne_nil (prev : List Char) : sqrtPress prev ≠ [] := by
  cases hnum : numStart prev with
  | none =>
    rw [sqrtPress_of_none hnum]
    intro hcontra
    cases (List.append_eq_nil.mp hcontra).2
  | some k =>
    rw [sqrtPress_of_numStart hnum]
    intro hcontra
    cases (List.append_eq_nil.mp (List.append_eq_nil.mp hcontra).2).1

lemma operPress_ne_nil_of_prev {res lbl prev : List Char} (hprev : prev ≠ [])
    (hlbl : lbl ≠ []) : operPress res lbl prev ≠ [] := by
  obtain ⟨last, hlast⟩ := exists_getLast?_of_ne_nil hprev
  rw [operPress_eq_of_getLast hlast]
  by_cases hop : isOp last = true
  · rw [if_pos hop]
    intro hc
    exact hlbl (List.append_eq_nil.mp hc).2
  · rw [if_neg hop]
    intro hc
    exact hlbl (List.append_eq_nil.mp hc).2

/-- Error-state invariant: whenever the displayed result is the error
marker, the input buffer is non-empty. -/
def Invariant9 (s : CalcState) : Prop :=
  s.result = "Error".data → s.expression ≠ []

lemma onKeyPress_pres_inv9 (ev : List Char → Option JSNumber) (lbl : String)
    {s : CalcState} (h : Invariant9 s) : Invariant9 (onKeyPress ev lbl s) := by
  unfold onKeyPress
  by_cases hC : lbl = "C" ∨ lbl = "AC"
  · rw [if_pos hC]
    intro hr
    exact absurd hr (by decide)
  rw [if_neg hC]
  by_cases hpm : lbl = "±"
  · rw [if_pos hpm]
    intro hr
    exact toggleSign_ne_nil s.expression
  rw [if_neg hpm]
  by_cases hpc : lbl = "%"
  · rw [if_pos hpc]
    intro hr
    exact applyPercent_ne_nil (h hr)
  rw [if_neg hpc]
  by_cases hui : lbl = "⋯ More" ∨ lbl = "DEG" ∨ lbl = "RAD"
  · rw [if_pos hui]
    exact h
  rw [if_neg hui]
  by_cases hpe : lbl = "π" ∨ lbl = "e"
  · rw [if_pos hpe]
    intro hr
    rcases hpe with rfl | rfl
    · exact @appendToken_ne_nil s.expression "π".data (by decide)
    · exact @appendToken_ne_nil s.expression "e".data (by decide)
  rw [if_neg hpe]
  by_cases hsq : lbl = "x²"
  · rw [if_pos hsq]
    intro hr
    exact squarePress_ne_nil (h hr)
  rw [if_neg hsq]
  by_cases hrt : lbl = "√"
  · rw [if_pos hrt]
    intro hr
    exact sqrtPress_ne_nil s.expression
  rw [if_neg hrt]
  by_cases hxy : lbl = "x^y"
  · rw [if_pos hxy]
    intro hr
    exact powPress_ne_nil (h hr)
  rw [if_neg hxy]
  by_cases heq : lbl = "="
  · rw [if_pos heq]
    by_cases htrim : jsTrim s.expression = []
    · rw [if_pos htrim]
      exact h
    · rw [if_neg htrim]
      show Invariant9 (if evaluateNow ev s.expression ≠ "Error".data
        then ⟨evaluateNow ev s.expression, evaluateNow ev s.expression⟩
        else ⟨s.expression, evaluateNow ev s.expression⟩)
      by_cases hr2 : evaluateNow ev s.expression ≠ "Error".data
      · rw [if_pos hr2]
        intro hr
        exact absurd hr hr2
      · rw [if_neg hr2]
        intro hr
        exact ne_nil_of_jsTrim_ne_nil htrim
  rw [if_neg heq]
  by_cases hop : lbl = "+" ∨ lbl = "−" ∨ lbl = "×" ∨ lbl = "÷"
  · rw [if_pos hop]
    intro hr
    rcases hop with rfl | rfl | rfl | rfl
    · exact operPress_ne_nil_of_prev (h hr) (by decide)
    · exact operPress_ne_nil_of_prev (h hr) (by decide)
    · exact operPress_ne_nil_of_prev (h hr) (by decide)
    · exact operPress_ne_nil_of_prev (h hr) (by decide)
  rw [if_neg hop]
  by_cases hpar : lbl = "(" ∨ lbl = ")"
  · rw [if_pos hpar]
    intro hr
    rcases hpar with rfl | rfl
    · exact @appendToken_ne_nil s.expression "(".data (by decide)
    · exact @appendToken_ne_nil s.expression ")".data (by decide)
  rw [if_neg hpar]
  by_cases hdig : lbl = "." ∨ lbl = "0" ∨ lbl = "1" ∨ lbl = "2" ∨ lbl = "3" ∨
      lbl = "4" ∨ lbl = "5" ∨ lbl = "6" ∨ lbl = "7" ∨ lbl = "8" ∨ lbl = "9"
  · rw [if_pos hdig]
    intro hr
    rcases hdig with rfl | rfl | rfl | rfl | rfl | rfl | rfl | rfl | rfl | rfl | rfl
    · exact @jsTrim_ne_nil (s.expression ++ ".".data) '.'
        (List.mem_append_right s.expression (by decide)) (by decide)
    · exact @jsTrim_ne_nil (s.expression ++ "0".data) '0'
        (List.mem_append_right s.expression (by decide)) (by decide)
    · exact @jsTrim_ne_nil (s.expression ++ "1".data) '1'
        (List.mem_append_right s.expression (by decide)) (by decide)
    · exact @jsTrim_ne_nil (s.expression ++ "2".data) '2'
        (List.mem_append_right s.expression (by decide)) (by decide)
    · exact @jsTrim_ne_nil (s.expression ++ "3".data) '3'
        (List.mem_append_right s.expression (by decide)) (by decide)
    · exact @jsTrim_ne_nil (s.expression ++ "4".data) '4'
        (List.mem_append_right s.expression (by decide)) (by decide)
    · exact @jsTrim_ne_nil (s.expression ++ "5".data) '5'
        (List.mem_append_right s.expression (by decide)) (by decide)
    · exact @jsTrim_ne_nil (s.expression ++ "6".data) '6'
        (List.mem_append_right s.expression (by decide)) (by decide)
    · exact @jsTrim_ne_nil (s.expression ++ "7".data) '7'
        (List.mem_append_right s.expression (by decide)) (by decide)
    · exact @jsTrim_ne_nil (s.expression ++ "8".data) '8'
        (List.mem_append_right s.expression (by decide)) (by decide)
    · exact @jsTrim_ne_nil (s.expression ++ "9".data) '9'
        (List.mem_append_right s.expression (by decide)) (by decide)
  rw [if_neg hdig]
  exact h

lemma runKeys_inv9 (ev : List Char → Option JSNumber) (keys : List String) :
    Invariant9 (runKeys ev keys initState) := by
  suffices h : ∀ s, Invariant9 s → Invariant9 (runKeys ev keys s) from
    h initState (fun hr => absurd hr (by decide))
  induction keys with
  | nil => exact fun s hs => hs
  | cons k ks ih => exact fun s hs => ih _ (onKeyPress_pres_inv9 ev k hs)

/-! ### Dispatch helpers for concrete keys -/

lemma onKeyPress_sqrt (ev : List Char → Option JSNumber) (s : CalcState) :
    onKeyPress ev "√" s = ⟨sqrtPress s.expression, s.result⟩ := by
  simp [onKeyPress]

/-- Evaluator mirroring the JavaScript behaviour on the single input
`5/0`: `expr-eval` evaluates it without throwing, yielding the IEEE-754
infinity, a non-finite value; every other input is rejected outright. -/
def divZeroEval : List Char → Option JSNumber := fun l =>
  if l = "5/0".data then some ⟨false, []⟩ else none

/-- C1: evaluation never throws past the evaluator boundary: whenever the
black-box parser/evaluator fails, or returns a non-finite numeric value
(as it does for `5/0`), `evaluateNow` returns the error marker `"Error"`;
and when `=` is pressed on a non-empty buffer and evaluation fails, the
displayed result becomes the error marker while the input buffer is left
unchanged. -/
theorem claim_C1 :
    (∀ (ev : List Char → Option JSNumber) (expr : List Char),
      (ev (sanitize expr) = none ∨
        ∃ v, ev (sanitize expr) = some v ∧ v.finite = false) →
      evaluateNow ev expr = "Error".data) ∧
    (∀ (ev : List Char → Option JSNumber) (s : CalcState),
      jsTrim s.expression ≠ [] → evaluateNow ev s.expression = "Error".data →
      onKeyPress ev "=" s = ⟨s.expression, "Error".data⟩) := by
  constructor
  · intro ev expr h
    unfold evaluateNow
    rcases h with h | ⟨v, hv, hf⟩
    · rw [h]
    · rw [hv]
      show formatResult v = "Error".data
      unfold formatResult
      rw [hf]
      simp
  · intro ev s htrim herr
    simp only [onKeyPress, String.reduceEq, if_false, if_true, reduceIte]
    rw [if_neg htrim]
    show (if evaluateNow ev s.expression ≠ "Error".data
      then (⟨evaluateNow ev s.expression, evaluateNow ev s.expression⟩ : CalcState)
      else ⟨s.expression, evaluateNow ev s.expression⟩) = ⟨s.expression, "Error".data⟩
    rw [if_neg (by rw [herr]; exact fun hc => hc rfl), herr]

/-- C1 witness: the concrete input `5÷0` (sanitized to `5/0`), evaluated
by the model evaluator that returns a non-finite value there, produces the
error marker, and pressing `=` on it leaves the buffer intact. -/
theorem claim_C1_witness :
    evaluateNow divZeroEval "5÷0".data = "Error".data ∧
    onKeyPress divZeroEval "=" ⟨"5÷0".data, "0".data⟩ =
      ⟨"5÷0".data, "Error".data⟩ := by
  constructor
  · exact claim_C1.1 divZeroEval "5÷0".data (Or.inr ⟨⟨false, []⟩, by decide, rfl⟩)
  · exact claim_C1.2 divZeroEval ⟨"5÷0".data, "0".data⟩ (by decide) (by decide)

/-- C2 counterexample: pressing `√` on the buffer `)` (whose last
character is a completed value) yields `)sqrt(` with NO multiplication
sign inserted, contradicting the claim that `×` is inserted between the
buffer and `sqrt(`. -/
theorem claim_C2_counterexample :
    onKeyPress noEval "√" ⟨")".data, "0".data⟩ = ⟨")sqrt(".data, "0".data⟩ ∧
    ")sqrt(".data ≠ ")×sqrt(".data := by
  constructor
  · rw [onKeyPress_sqrt]
    decide
  · decide

/-- C2 amended: pressing `√` on a buffer ending in a bare trailing number
rewrites that number `n` in place to `sqrt(n)`; on every other buffer the
token `sqrt(` is appended directly, with no multiplication sign ever
inserted — the implicit-multiplication test examines the token's first
character `s`, which never starts a value. -/
theorem claim_C2_amended :
    ∀ (ev : List Char → Option JSNumber) (s : CalcState),
      (∀ k, numStart s.expression = some k →
        onKeyPress ev "√" s =
          ⟨s.expression.take k ++ ("sqrt(".data ++ (s.expression.drop k ++ [')'])),
            s.result⟩) ∧
      (numStart s.expression = none →
        onKeyPress ev "√" s = ⟨s.expression ++ "sqrt(".data, s.result⟩) := by
  intro ev s
  constructor
  · intro k hk
    rw [onKeyPress_sqrt, sqrtPress_of_numStart hk]
  · intro h
    rw [onKeyPress_sqrt, sqrtPress_of_none h]

/-- C2 witness: `apply("16", "√")` yields `"sqrt(16)"`, and on a buffer
ending in an operator the token is appended without rewriting. -/
theorem claim_C2_witness :
    onKeyPress noEval "√" ⟨"16".data, "0".data⟩ = ⟨"sqrt(16)".data, "0".data⟩ ∧
    onKeyPress noEval "√" ⟨"+".data, "0".data⟩ = ⟨"+sqrt(".data, "0".data⟩ := by
  constructor
  · exact ((claim_C2_amended noEval ⟨"16".data, "0".data⟩).1 0 (by decide)).trans
      (by decide)
  · exact ((claim_C2_amended noEval ⟨"+".data, "0".data⟩).2 (by decide)).trans
      (by decide)

/-- C3 counterexample: `x = "2(-3)"` ends in the parenthesized negative
number `(-3)`, yet toggling the sign twice yields `"(-23)"`, not `x`: the
unwrap step produces `"23"`, whose trailing number is `23`, so the second
toggle wraps more than the original `3`. -/
theorem claim_C3_counterexample :
    toggleSign (toggleSign "2(-3)".data) = "(-23)".data ∧
    "(-23)".data ≠ "2(-3)".data := by decide

/-- C3 amended: double sign-toggle is the identity on every expression
ending in a bare number; for an expression `p ++ "(-n)"` ending in a
parenthesized negative number it is the identity provided the trailing
number of the unwrapped string `p ++ n` is exactly `n` (equivalently, the
regex match starts at position `p.length`) — which fails when a digit
immediately precedes the `(`, as in the counterexample. -/
theorem claim_C3_amended :
    (∀ (l : List Char) (k : Nat), numStart l = some k →
      toggleSign (toggleSign l) = l) ∧
    (∀ p n : List Char, matchesNumPat n = true →
      numStart (p ++ n) = some p.length →
      toggleSign (toggleSign (p ++ ('(' :: '-' :: (n ++ [')'])))) =
        p ++ ('(' :: '-' :: (n ++ [')']))) :=
  ⟨fun _ _ hk => toggleSign_toggleSign_of_numStart hk,
   fun p n hn hmin => toggleSign_toggleSign_wrapped p n hn hmin⟩

/-- C3 witness: double toggle fixes `"3+4"` (ends in a bare number) and
`"7+(-5)"` (ends in a parenthesized negative number). -/
theorem claim_C3_witness :
    toggleSign (toggleSign "3+4".data) = "3+4".data ∧
    toggleSign (toggleSign "7+(-5)".data) = "7+(-5)".data := by
  constructor
  · exact claim_C3_amended.1 "3+4".data 2 (by decide)
  · exact claim_C3_amended.2 "7+".data "5".data (by decide) (by decide)

/-- C4: evaluation of the code at the failing input: pressing `5`, `−`,
`+` from the initial state yields the buffer `5−+` — the keypad minus
glyph `−` (U+2212) is absent from the source `isOp` list, so the trailing
operator is appended instead of replaced, producing a doubled operator,
while the claim expects the replacement `5+`. -/
theorem claim_C4_failing :
    runKeys noEval ["5", "−", "+"] initState = ⟨"5−+".data, "0".data⟩ ∧
    "5−+".data ≠ "5+".data := by decide

/-- C5: starting from the empty buffer, every sequence of key presses
keeps the input buffer free of two consecutive binary-operator characters
(the characters of the source `isOp` list `+ - × ÷ * /`), for every
black-box evaluator whose successfully formatted results are well-formed
result strings — no adjacent operator characters, no whitespace, no
trailing operator — as the decimal renderings produced by the real
evaluator's number formatting are. -/
theorem claim_C5 :
    ∀ (ev : List Char → Option JSNumber), EvOK ev →
      ∀ keys : List String, noTwoOps (runKeys ev keys initState).expression = true :=
  fun _ hev keys => (runKeys_inv5 hev keys).1

/-- C5 witness: a concrete key sequence (with doubled operator presses)
run against the always-failing evaluator keeps the invariant. -/
theorem claim_C5_witness :
    noTwoOps (runKeys noEval ["5", "+", "+", "3"] initState).expression = true :=
  claim_C5 noEval (fun _ _ h => nomatch h) ["5", "+", "+", "3"]

/-- C6 counterexample: pressing `.` twice from the initial state yields
the buffer `..`, a maximal digit-or-dot run containing two dots — the
invariant claimed is not preserved. -/
theorem claim_C6_counterexample :
    (runKeys noEval [".", "."] initState).expression = "..".data ∧
    dotRunsOk "..".data = false := by decide

/-- C6 amended: digit and decimal-point keys are appended verbatim to the
buffer (up to the trim of a whitespace-free string, which is the
identity); consequently the at-most-one-dot-per-digit-run invariant is NOT
maintained by the editor — pressing `.` twice yields `..`. -/
theorem claim_C6_amended :
    ∀ (ev : List Char → Option JSNumber) (s : CalcState) (lbl : String),
      (lbl = "." ∨ lbl = "0" ∨ lbl = "1" ∨ lbl = "2" ∨ lbl = "3" ∨ lbl = "4" ∨
        lbl = "5" ∨ lbl = "6" ∨ lbl = "7" ∨ lbl = "8" ∨ lbl = "9") →
      wsFree s.expression = true →
      onKeyPress ev lbl s = ⟨s.expression ++ lbl.data, s.result⟩ := by
  intro ev s lbl hlbl hw
  have happ : ∀ d : List Char, wsFree d = true →
      jsTrim (s.expression ++ d) = s.expression ++ d := by
    intro d hd
    exact jsTrim_eq_self ((wsFree_append _ _).mpr ⟨hw, hd⟩)
  rcases hlbl with rfl | rfl | rfl | rfl | rfl | rfl | rfl | rfl | rfl | rfl | rfl
  · rw [show onKeyPress ev "." s = ⟨jsTrim (s.expression ++ ".".data), s.result⟩
      from by simp [onKeyPress], happ _ (by decide)]
  · rw [show onKeyPress ev "0" s = ⟨jsTrim (s.expression ++ "0".data), s.result⟩
      from by simp [onKeyPress], happ _ (by decide)]
  · rw [show onKeyPress ev "1" s = ⟨jsTrim (s.expression ++ "1".data), s.result⟩
      from by simp [onKeyPress], happ _ (by decide)]
  · rw [show onKeyPress ev "2" s = ⟨jsTrim (s.expression ++ "2".data), s.result⟩
      from by simp [onKeyPress], happ _ (by decide)]
  · rw [show onKeyPress ev "3" s = ⟨jsTrim (s.expression ++ "3".data), s.result⟩
      from by simp [onKeyPress], happ _ (by decide)]
  · rw [show onKeyPress ev "4" s = ⟨jsTrim (s.expression ++ "4".data), s.result⟩
      from by simp [onKeyPress], happ _ (by decide)]
  · rw [show onKeyPress ev "5" s = ⟨jsTrim (s.expression ++ "5".data), s.result⟩
      from by simp [onKeyPress], happ _ (by decide)]
  · rw [show onKeyPress ev "6" s = ⟨jsTrim (s.expression ++ "6".data), s.result⟩
      from by simp [onKeyPress], happ _ (by decide)]
  · rw [show onKeyPress ev "7" s = ⟨jsTrim (s.expression ++ "7".data), s.result⟩
      from by simp [onKeyPress], happ _ (by decide)]
  · rw [show onKeyPress ev "8" s = ⟨jsTrim (s.expression ++ "8".data), s.result⟩
      from by simp [onKeyPress], happ _ (by decide)]
  · rw [show onKeyPress ev "9" s = ⟨jsTrim (s.expression ++ "9".data), s.result⟩
      from by simp [onKeyPress], happ _ (by decide)]

/-- C6 witness: appending a dot to the buffer `1` yields `1.` verbatim. -/
theorem claim_C6_witness :
    onKeyPress noEval "." ⟨"1".data, "0".data⟩ = ⟨"1.".data, "0".data⟩ :=
  (claim_C6_amended noEval ⟨"1".data, "0".data⟩ "." (Or.inl rfl) (by decide)).trans
    (by decide)

/-- C7: percent is last-token-local: when the buffer ends in a trailing
number (regex match starting at `k`), `applyPercent` keeps the first `k`
characters unchanged and rewrites exactly the trailing number `n` to
`(n/100)`; when there is no trailing number the buffer is returned
unchanged. -/
theorem claim_C7 :
    ∀ l : List Char,
      (∀ k, numStart l = some k →
        applyPercent l =
          l.take k ++ ('(' :: (l.drop k ++ ('/' :: '1' :: '0' :: '0' :: ')' :: [])))) ∧
      (numStart l = none → applyPercent l = l) :=
  fun _ => ⟨fun _ hk => applyPercent_of_numStart hk, applyPercent_of_none⟩

/-- C7 witness: `applyPercent("3+4")` yields `"3+(4/100)"`, never
`"(3+4)/100"`; and a buffer with no trailing number is unchanged. -/
theorem claim_C7_witness :
    applyPercent "3+4".data = "3+(4/100)".data ∧
    "3+(4/100)".data ≠ "(3+4)/100".data ∧
    applyPercent "3+".data = "3+".data := by
  refine ⟨((claim_C7 "3+4".data).1 2 (by decide)).trans (by decide), by decide, ?_⟩
  exact (claim_C7 "3+".data).2 (by decide)

/-- C9: in every state reachable from the initial state by key presses
(under any black-box evaluator), if the displayed result is the error
marker then the input buffer is non-empty; contrapositively, an operator
key pressed on an empty buffer never sees the error marker as the result
it would chain from. -/
theorem claim_C9 :
    ∀ (ev : List Char → Option JSNumber) (keys : List String),
      ((runKeys ev keys initState).result = "Error".data →
        (runKeys ev keys initState).expression ≠ []) ∧
      ((runKeys ev keys initState).expression = [] →
        (runKeys ev keys initState).result ≠ "Error".data) := by
  intro ev keys
  have h := runKeys_inv9 ev keys
  exact ⟨h, fun he hr => h hr he⟩

/-- C9 witness: after pressing `5` then `=` under the always-failing
evaluator the result is the error marker and the buffer `5` is intact. -/
theorem claim_C9_witness :
    (runKeys noEval ["5", "="] initState).expression ≠ [] :=
  (claim_C9 noEval ["5", "="]).1 (by decide)

/-- C10: pressing `=` on an empty or whitespace-only buffer changes
nothing: the state is returned unchanged, for every black-box evaluator —
so no evaluation takes place. -/
theorem claim_C10 :
    ∀ (ev : List Char → Option JSNumber) (s : CalcState),
      jsTrim s.expression = [] → onKeyPress ev "=" s = s := by
  intro ev s h
  simp [onKeyPress, h]

/-- C10 witness: pressing `=` in the initial state leaves it unchanged. -/
theorem claim_C10_witness : onKeyPress noEval "=" initState = initState :=
  claim_C10 noEval initState (by decide)
